import Mathlib

/-!
Verification development for the `node_module_cleaner` utility
(`src/main.rs`): a terminal tool that scans the home directory for
`node_modules` folders, lists them with sizes, lets the user mark rows and
bulk-delete the marked folders.

The Rust program is shallowly embedded below:

* `Data` and `App` mirror the `Data` and `App` structs (presentation-only
  fields — colors, column widths, the ratatui widgets themselves — are left
  out; the cursor `state: TableState` is kept as its `selected` index and the
  scrollbar as its position).
* `u64`/`usize` arithmetic that can overflow or underflow, out-of-bounds
  indexing and `unwrap`/`expect` panics are modelled by `Option`-returning
  functions (`none` = the operation faults instead of producing a state).
* The `ByteSize` display / `FromStr` pair of the `bytesize` crate, which the
  program uses for its size labels, is embedded with exact rational
  arithmetic in place of the f64 arithmetic of the crate: the one-decimal float
  formatting is modelled as round-half-to-even on the exact rational
  mantissa, and the float truncation of the base-1000 logarithm as the
  integer base-1000 logarithm.  The theorems below only evaluate these
  functions at points where the two semantics agree.
* Filesystem effects (`remove_dir_all`, `dir_size::get_size_in_bytes`) are
  parameters: a deletion-outcome function whose result the code discards,
  and a partial size oracle whose `none` models `Err`.
-/

/-! ## Decimal digit rendering (the Rust decimal format of unsigned ints) -/

/-- Character for a single decimal digit value. -/
def digitChar (n : Nat) : Char :=
  Char.ofNat (48 + n)

/-- Fuel-driven decimal digit list of `n`, most significant first.
Structural recursion on the fuel so that the kernel can evaluate it. -/
def natDigitsAux : Nat → Nat → List Char
  | 0, _ => []
  | fuel + 1, n =>
    if n < 10 then [digitChar n]
    else natDigitsAux fuel (n / 10) ++ [digitChar (n % 10)]

/-- Decimal digit list of `n`, as the Rust Display impl for unsigned integers
renders it. -/
def natDigits (n : Nat) : List Char :=
  natDigitsAux (n + 1) n

/-- Numeric value of a decimal digit character. -/
def digitVal (c : Char) : Nat := c.toNat - 48

/-- Value of a decimal digit list (empty list reads as 0). -/
def valDigits (cs : List Char) : Nat :=
  cs.foldl (fun a c => 10 * a + digitVal c) 0

/-! ## Lexicographic order on strings

Rust compares `String`s byte-lexicographically; UTF-8 preserves the order
of code points, so this equals code-point-lexicographic comparison of the
character lists. -/

/-- Lexicographic less-or-equal on character lists by code point. -/
def lexLe : List Char → List Char → Bool
  | [], _ => true
  | _ :: _, [] => false
  | a :: as, b :: bs =>
    if a.toNat < b.toNat then true
    else if b.toNat < a.toNat then false
    else lexLe as bs

/-- The order the Rust Ord impl for String induces, on the embedded strings. -/
def strLe (s t : String) : Bool := lexLe s.data t.data

/-! ## Substring search (Rust `str::contains` with a literal pattern) -/

/-- Does `hay` start with `pat`? -/
def startsWithL : List Char → List Char → Bool
  | [], _ => true
  | _ :: _, [] => false
  | p :: ps, h :: hs => p == h && startsWithL ps hs

/-- Does `hay` contain `pat` as a contiguous substring? -/
def hasSub (pat hay : List Char) : Bool :=
  match hay with
  | [] => pat.isEmpty
  | _ :: t => startsWithL pat hay || hasSub pat t

/-- Rust `haystack.contains(pattern)` on the embedded strings. -/
def strContains (hay pat : String) : Bool :=
  hasSub pat.data hay.data

/-! ## The `bytesize` crate: `ByteSize` display and parse

`Display for ByteSize` calls `to_string(bytes, false)` (decimal units,
`KB = 1000`): bytes below 1000 print as `"<n> B"`, larger values as
`"<m>.<d> <u>B"` with one decimal of the mantissa `bytes / 1000^exp` and
unit letter from `"KMGTPE"` at `exp - 1`, where
exp the float truncation of ln bytes over ln 1000 to usize (clamped up to 1). -/

/-- Fuel-driven floor of the base-1000 logarithm, modelling the float
truncation of ln size over LN_KB to usize in the crate. -/
def log1000Aux : Nat → Nat → Nat
  | 0, _ => 0
  | fuel + 1, n => if n < 1000 then 0 else log1000Aux fuel (n / 1000) + 1

/-- Floor of the base-1000 logarithm. -/
def log1000 (n : Nat) : Nat := log1000Aux n n

/-- Unit letter at exponent `e` (the crate indexes `"KMGTPE"` at `e - 1`;
for a `u64` byte count `e ≤ 6`). -/
def unitChar (e : Nat) : Char :=
  match e with
  | 1 => 'K' | 2 => 'M' | 3 => 'G' | 4 => 'T' | 5 => 'P' | _ => 'E'

/-- Mantissa of `b` at exponent `e`, in tenths, rounded to nearest with
ties to even — the model of the one-decimal float format of b as f64 over 1000^e. -/
def tenthsOf (b e : Nat) : Nat :=
  let den := 1000 ^ e
  let num := 10 * b
  let q := num / den
  let r := num % den
  if 2 * r < den then q
  else if den < 2 * r then q + 1
  else if q % 2 = 0 then q else q + 1

/-- The default display of the `bytesize` crate of a byte count (the `size`
labels stored in `Data.size` by `generate_data`). -/
def bytesize_to_string (b : Nat) : String :=
  if b < 1000 then ⟨natDigits b ++ [' ', 'B']⟩
  else
    let e := log1000 b
    let t := tenthsOf b e
    ⟨natDigits (t / 10) ++ ['.'] ++ natDigits (t % 10) ++ [' ', unitChar e, 'B']⟩

/-- Numeric part taken by the parse routine of the crate:
the take_while over ascii digits and the dot. -/
def numPart (cs : List Char) : List Char :=
  cs.takeWhile (fun c => c.isDigit || c == '.')

/-- Suffix left by the parse routine of the crate:
the skip_while over whitespace, ascii digits and the dot. -/
def unitPart (cs : List Char) : List Char :=
  cs.dropWhile (fun c => c.isWhitespace || c.isDigit || c == '.')

/-- Decimal literal parse (`f64::from_str` restricted to the digit-and-dot
strings `take_while` can produce): integer part, fractional digits and
their count.  Rejects the empty string, a lone dot, and more than one
dot. -/
def parseDecimal (cs : List Char) : Option (Nat × Nat × Nat) :=
  let as := cs.takeWhile (fun c => !(c == '.'))
  match cs.dropWhile (fun c => !(c == '.')) with
  | [] =>
    if !as.isEmpty && as.all Char.isDigit then some (valDigits as, 0, 0) else none
  | _ :: bs =>
    if (as.all Char.isDigit && bs.all Char.isDigit)
        && (!as.isEmpty || !bs.isEmpty)
        && bs.all (fun c => !(c == '.')) then
      some (valDigits as, valDigits bs, bs.length)
    else none

/-- Factor of a unit suffix, after lowercasing — the FromStr impl
for Unit in the crate (decimal and binary units). -/
def unitFactor (cs : List Char) : Option Nat :=
  match (⟨cs.map Char.toLower⟩ : String) with
  | "b" => some 1
  | "k" => some 1000 | "kb" => some 1000
  | "ki" => some 1024 | "kib" => some 1024
  | "m" => some (1000 ^ 2) | "mb" => some (1000 ^ 2)
  | "mi" => some (1024 ^ 2) | "mib" => some (1024 ^ 2)
  | "g" => some (1000 ^ 3) | "gb" => some (1000 ^ 3)
  | "gi" => some (1024 ^ 3) | "gib" => some (1024 ^ 3)
  | "t" => some (1000 ^ 4) | "tb" => some (1000 ^ 4)
  | "ti" => some (1024 ^ 4) | "tib" => some (1024 ^ 4)
  | "p" => some (1000 ^ 5) | "pb" => some (1000 ^ 5)
  | "pi" => some (1024 ^ 5) | "pib" => some (1024 ^ 5)
  | "e" => some (1000 ^ 6) | "eb" => some (1000 ^ 6)
  | "ei" => some (1024 ^ 6) | "eib" => some (1024 ^ 6)
  | _ => none

/-- ByteSize from_str of the crate: an all-digit string parses as a plain
`u64`; otherwise the numeric part is parsed as a decimal literal, the
suffix as a unit, and the product `(v * factor) as u64` is floored
(saturating at `u64::MAX`, as `as u64` does). -/
def bytesize_from_str (s : String) : Option Nat :=
  let cs := s.data
  if !cs.isEmpty && cs.all Char.isDigit then
    if valDigits cs < 2 ^ 64 then some (valDigits cs) else none
  else
    match parseDecimal (numPart cs) with
    | none => none
    | some (i, f, k) =>
      match unitFactor (unitPart cs) with
      | none => none
      | some factor =>
        some (min (((i * 10 ^ k + f) * factor) / 10 ^ k) (2 ^ 64 - 1))

/-! ## The data model (`struct Data`, `struct App`) -/

/-- One table row (`struct Data`): the home-relative path of a discovered
`node_modules` folder, its size label, and the selection glyph. -/
structure Data where
  name : String
  size : String
  selected_for_deletion : String
deriving DecidableEq

/-- Glyph stored for an unmarked row (two spaces and a ballot box). -/
def uncheckedGlyph : String := "  ☐"

/-- Glyph stored for a marked row (two spaces and a checked ballot box). -/
def checkedGlyph : String := "  ☑"

/-- Application state (`struct App`).  `cursor` is `state.selected()` of the
`TableState`, `scroll` the scrollbar position; the purely visual fields
(`colors`, `longest_item_lens`) are not modelled. -/
structure App where
  cursor : Option Nat
  scroll : Nat
  items : List Data
  delete_folder : List Bool
  sorted_by : Nat
  selected_size : Nat
  color_index : Nat
deriving DecidableEq

/-- Row height used for scroll positions (`ITEM_HEIGHT`). -/
def ITEM_HEIGHT : Nat := 4

/-- Number of color palettes (`PALETTES.len()`). -/
def palettesLen : Nat := 4

/-- `App::new` given the scan result `data_vec` (the real constructor calls
`generate_data()`; the scrollbar content length is not part of the
modelled state, its position starts at 0). -/
def App.new (data_vec : List Data) : App :=
  { cursor := some 0
    scroll := 0
    items := data_vec
    delete_folder := List.replicate data_vec.length false
    sorted_by := 0
    selected_size := 0
    color_index := 0 }

/-! ## Cursor movement (`App::next_row`, `App::previous_row`)

Both compute `self.items.len() - 1` on `usize` inside the `Some` arm;
with an empty list that subtraction underflows, which is a fault
(`none`). -/

/-- `App::next_row`. -/
def nextRow (a : App) : Option App :=
  match a.cursor with
  | some i =>
    if a.items.length = 0 then none
    else
      let j := if i ≥ a.items.length - 1 then 0 else i + 1
      some { a with cursor := some j, scroll := j * ITEM_HEIGHT }
  | none => some { a with cursor := some 0, scroll := 0 }

/-- `App::previous_row` (the `len - 1` underflow can only happen in the
`i == 0` branch). -/
def previousRow (a : App) : Option App :=
  match a.cursor with
  | some i =>
    if i = 0 then
      if a.items.length = 0 then none
      else
        let j := a.items.length - 1
        some { a with cursor := some j, scroll := j * ITEM_HEIGHT }
    else
      let j := i - 1
      some { a with cursor := some j, scroll := j * ITEM_HEIGHT }
  | none => some { a with cursor := some 0, scroll := 0 }

/-! ## Toggling a mark (`App::select_for_deletion`) -/

/-- `App::select_for_deletion`: reads the row at the cursor (out-of-bounds
indexing faults), re-parses its size label (`unwrap` on failure faults),
then flips `delete_folder[i]`, rewrites the glyph and adjusts
`selected_size` by the parsed amount (`u64` over/underflow faults). -/
def selectForDeletion (a : App) : Option App :=
  let i := a.cursor.getD 0
  match a.items[i]? with
  | none => none
  | some d =>
    match bytesize_from_str d.size with
    | none => none
    | some abc =>
      match a.delete_folder[i]? with
      | none => none
      | some b =>
        if b then
          if abc ≤ a.selected_size then
            some { a with
              delete_folder := a.delete_folder.set i false
              items := a.items.set i { d with selected_for_deletion := uncheckedGlyph }
              selected_size := a.selected_size - abc }
          else none
        else
          if a.selected_size + abc < 2 ^ 64 then
            some { a with
              delete_folder := a.delete_folder.set i true
              items := a.items.set i { d with selected_for_deletion := checkedGlyph }
              selected_size := a.selected_size + abc }
          else none

/-! ## Color cycling (`App::next_color`, `App::previous_color`) -/

/-- `App::next_color`. -/
def nextColor (a : App) : App :=
  { a with color_index := (a.color_index + 1) % palettesLen }

/-- `App::previous_color`. -/
def previousColor (a : App) : App :=
  { a with color_index := (a.color_index + palettesLen - 1) % palettesLen }

/-! ## Sorting and reversal (`App::sort_by_next_field`, the r key) -/

/-- `App::sort_by_next_field`: cycles name → glyph → size label, re-sorting
`items` by the chosen key each call.  the stable Rust sort_by_key is
modelled by the stable `List.mergeSort`. -/
def sortByNextField (a : App) : App :=
  match a.sorted_by with
  | 0 => { a with
      items := a.items.mergeSort (fun x y => strLe x.name y.name)
      sorted_by := 1 }
  | 1 => { a with
      items := a.items.mergeSort
        (fun x y => strLe x.selected_for_deletion y.selected_for_deletion)
      sorted_by := 2 }
  | _ => { a with
      items := a.items.mergeSort (fun x y => strLe x.size y.size)
      sorted_by := 0 }

/-- Handler of the r key: `self.items.reverse()`. -/
def reverseItems (a : App) : App :=
  { a with items := a.items.reverse }

/-! ## Bulk deletion (`App::remove_directories`)

The marked rows are those whose glyph is the checked box; for each, the
full path `homedir ++ name` is passed to `remove_dir_all`, whose `Result`
is discarded (`let _ = ...`) — `fsDel` stands for that filesystem outcome
and is likewise discarded.  Afterwards `items.retain` drops every row
whose full path is in the collected list. -/

/-- `App::remove_directories`. -/
def removeDirectories (homedir : String) (fsDel : String → Bool) (a : App) : App :=
  let items_to_remove : List String :=
    a.items.filterMap (fun i =>
      if i.selected_for_deletion == checkedGlyph then
        let file_path := homedir ++ i.name
        let _ := fsDel file_path
        some file_path
      else none)
  { a with
    items := a.items.filter
      (fun d => !(items_to_remove.contains (homedir ++ d.name))) }

/-! ## Startup scan (`generate_data`)

`get_array()` yields home-relative paths of directories whose final
component is `node_modules`; those are the `cands` input of this function.
For each candidate the code pops 13 bytes (`"/node_modules"`) off a copy
to get the parent path, drops the candidate when the parent contains a
denylisted substring, and otherwise computes the size of
`homedir ++ parent` — `sizes` models `dir_size::get_size_in_bytes`, and
its `none` (an `Err`) hits the `.expect("REASON")` panic, faulting the
whole scan.  A candidate shorter than 13 bytes would make the pop loop
diverge, also a fault. -/

/-- Denylisted substrings tested against the parent path. -/
def denylist : List String :=
  ["node_modules", ".cache", ".vscode", ".local", ".npm", ".nvm",
   ".steam", ".var", ".cargo", "/caches/", "/Caches/"]

/-- Parent path of a candidate: the candidate minus its last 13
characters (`"/node_modules"` is ASCII, so bytes = characters). -/
def parentChars (c : String) : List Char :=
  c.data.take (c.data.length - 13)

/-- Does the parent path of candidate `c` contain a denylisted
substring? -/
def excludedParent (c : String) : Bool :=
  denylist.any (fun p => hasSub p.data (parentChars c))

/-- `generate_data`, over the candidate list produced by `get_array` and
the size oracle.  Order-preserving, as the indexed
rayon filter_map collect is. -/
def generateData (homedir : String) (sizes : String → Option Nat) :
    List String → Option (List Data)
  | [] => some []
  | c :: rest =>
    if c.data.length < 13 then none
    else if excludedParent c then generateData homedir sizes rest
    else
      match sizes (homedir ++ (⟨parentChars c⟩ : String)) with
      | none => none
      | some parent =>
        match generateData homedir sizes rest with
        | none => none
        | some ds =>
          some ({ name := c
                  size := bytesize_to_string parent
                  selected_for_deletion := uncheckedGlyph } :: ds)

/-! ## Helper lemmas about digit strings -/

/-- The ten decimal digit characters. -/
def digitChars : List Char := ['0', '1', '2', '3', '4', '5', '6', '7', '8', '9']

theorem digitChar_mem {k : Nat} (h : k < 10) : digitChar k ∈ digitChars := by
  interval_cases k <;> decide

theorem digitVal_digitChar {k : Nat} (h : k < 10) : digitVal (digitChar k) = k := by
  interval_cases k <;> decide

theorem valDigits_append (xs : List Char) (c : Char) :
    valDigits (xs ++ [c]) = 10 * valDigits xs + digitVal c := by
  simp [valDigits, List.foldl_append]

theorem natDigitsAux_mem :
    ∀ fuel n c, c ∈ natDigitsAux fuel n → c ∈ digitChars := by
  intro fuel
  induction fuel with
  | zero => intro n c hc; simp [natDigitsAux] at hc
  | succ m ih =>
    intro n c hc
    by_cases h : n < 10
    · simp [natDigitsAux, h] at hc
      subst hc
      exact digitChar_mem h
    · simp [natDigitsAux, h] at hc
      rcases hc with hc | hc
      · exact ih _ _ hc
      · subst hc
        exact digitChar_mem (Nat.mod_lt _ (by omega))

theorem natDigits_mem {n : Nat} {c : Char} (hc : c ∈ natDigits n) : c ∈ digitChars :=
  natDigitsAux_mem _ _ _ hc

theorem natDigitsAux_ne_nil : ∀ fuel n, n < fuel → natDigitsAux fuel n ≠ [] := by
  intro fuel
  induction fuel with
  | zero => intro n h; omega
  | succ m ih =>
    intro n _
    by_cases h : n < 10 <;> simp [natDigitsAux, h]

theorem natDigits_ne_nil (n : Nat) : natDigits n ≠ [] :=
  natDigitsAux_ne_nil _ _ (Nat.lt_succ_self n)

theorem natDigitsAux_val : ∀ fuel n, n < fuel → valDigits (natDigitsAux fuel n) = n := by
  intro fuel
  induction fuel with
  | zero => intro n h; omega
  | succ m ih =>
    intro n hn
    by_cases h : n < 10
    · simp [natDigitsAux, h, valDigits]
      have := digitVal_digitChar h
      simpa [valDigits] using this
    · have hdiv : n / 10 < n := Nat.div_lt_self (by omega) (by omega)
      have hm : n / 10 < m := by omega
      simp only [natDigitsAux, if_neg h]
      rw [valDigits_append, ih _ hm, digitVal_digitChar (Nat.mod_lt _ (by omega))]
      omega

theorem valDigits_natDigits (n : Nat) : valDigits (natDigits n) = n :=
  natDigitsAux_val _ _ (Nat.lt_succ_self n)

/-- Any fact decidable on the ten digit characters holds for every
character of a rendered number; stated for the three predicates the
parse routine applies. -/
theorem digit_props {c : Char} (h : c ∈ digitChars) :
    c.isDigit = true ∧ (c == '.') = false ∧ c.isWhitespace = false := by
  fin_cases h <;> refine ⟨by decide, by decide, by decide⟩

/-! ## takeWhile and dropWhile over a fully satisfying block -/

theorem takeWhile_all_append {p : Char → Bool} :
    ∀ xs ys, (∀ x ∈ xs, p x = true) →
      List.takeWhile p (xs ++ ys) = xs ++ List.takeWhile p ys := by
  intro xs
  induction xs with
  | nil => intro ys _; simp
  | cons x xs ih =>
    intro ys hall
    have hx : p x = true := hall x (by simp)
    simp only [List.cons_append, List.takeWhile_cons, hx, if_true]
    rw [ih ys (fun z hz => hall z (by simp [hz]))]

theorem dropWhile_all_append {p : Char → Bool} :
    ∀ xs ys, (∀ x ∈ xs, p x = true) →
      List.dropWhile p (xs ++ ys) = List.dropWhile p ys := by
  intro xs
  induction xs with
  | nil => intro ys _; simp
  | cons x xs ih =>
    intro ys hall
    have hx : p x = true := hall x (by simp)
    simp only [List.cons_append, List.dropWhile_cons, hx, if_true]
    exact ih ys (fun z hz => hall z (by simp [hz]))

theorem takeWhile_all {p : Char → Bool} (xs : List Char)
    (h : ∀ x ∈ xs, p x = true) : List.takeWhile p xs = xs := by
  have := takeWhile_all_append (p := p) xs [] h
  simpa using this

theorem dropWhile_all {p : Char → Bool} (xs : List Char)
    (h : ∀ x ∈ xs, p x = true) : List.dropWhile p xs = [] := by
  have := dropWhile_all_append (p := p) xs [] h
  simpa using this

/-! ## Round trip of the size label of a small byte count -/

theorem numPart_digits (n : Nat) :
    numPart (natDigits n ++ [' ', 'B']) = natDigits n := by
  unfold numPart
  rw [takeWhile_all_append _ _ (fun x hx => by
    have := (digit_props (natDigits_mem hx)).1
    simp [this])]
  simp

theorem unitPart_digits (n : Nat) :
    unitPart (natDigits n ++ [' ', 'B']) = ['B'] := by
  unfold unitPart
  rw [dropWhile_all_append _ _ (fun x hx => by
    have := (digit_props (natDigits_mem hx)).1
    simp [this])]
  decide

theorem parseDecimal_digits (n : Nat) :
    parseDecimal (natDigits n) = some (n, 0, 0) := by
  unfold parseDecimal
  have hall : ∀ x ∈ natDigits n, (!(x == '.')) = true := fun x hx => by
    have := (digit_props (natDigits_mem hx)).2.1
    simp [this]
  rw [takeWhile_all _ hall, dropWhile_all _ hall]
  have hne : (!(natDigits n).isEmpty) = true := by
    simp [List.isEmpty_iff, natDigits_ne_nil n]
  have hdig : (natDigits n).all Char.isDigit = true := by
    rw [List.all_eq_true]
    exact fun x hx => (digit_props (natDigits_mem hx)).1
  simp [hne, hdig, valDigits_natDigits]

/-- C5 (amended).  The format-then-parse round trip on size labels is the
identity exactly on the labels that carry the full count: for every byte
count below 1000 the label is the digits followed by " B" and parses back
to the same count (the counterexample shows larger counts are rounded to
one decimal and do not round-trip). -/
theorem bytesize_roundtrip_small (b : Nat) (h : b < 1000) :
    bytesize_from_str (bytesize_to_string b) = some b := by
  have hts : bytesize_to_string b = ⟨natDigits b ++ [' ', 'B']⟩ := by
    unfold bytesize_to_string
    rw [if_pos h]
  rw [hts]
  unfold bytesize_from_str
  have hdata : (⟨natDigits b ++ [' ', 'B']⟩ : String).data = natDigits b ++ [' ', 'B'] := rfl
  rw [hdata]
  have hnotall : ((natDigits b ++ [' ', 'B']).all Char.isDigit) = false := by
    rw [Bool.eq_false_iff]
    intro hc
    rw [List.all_eq_true] at hc
    have := hc ' ' (by simp)
    simp at this
  have hb : unitFactor ['B'] = some 1 := by decide
  simp only [hnotall, Bool.and_false, Bool.false_eq_true, if_false,
    numPart_digits, parseDecimal_digits, unitPart_digits, hb]
  simp
  omega

/-! ## Order lemmas for the string comparison used in sorting -/

theorem lexLe_total : ∀ x y : List Char, (lexLe x y || lexLe y x) = true := by
  intro x
  induction x with
  | nil => intro y; simp [lexLe]
  | cons a as ih =>
    intro y
    cases y with
    | nil => simp [lexLe]
    | cons b bs =>
      by_cases h1 : a.toNat < b.toNat
      · simp [lexLe, h1]
      · by_cases h2 : b.toNat < a.toNat
        · simp [lexLe, h1, h2]
        · simp [lexLe, h1, h2, ih bs]

theorem lexLe_trans :
    ∀ x y z : List Char, lexLe x y = true → lexLe y z = true → lexLe x z = true := by
  intro x
  induction x with
  | nil => intro y z _ _; simp [lexLe]
  | cons a as ih =>
    intro y z hxy hyz
    cases y with
    | nil => simp [lexLe] at hxy
    | cons b bs =>
      cases z with
      | nil => simp [lexLe] at hyz
      | cons c cs =>
        simp only [lexLe] at hxy hyz ⊢
        by_cases hab : a.toNat < b.toNat
        · by_cases hbc : b.toNat < c.toNat
          · have : a.toNat < c.toNat := by omega
            simp [this]
          · by_cases hcb : c.toNat < b.toNat
            · simp [hbc, hcb] at hyz
            · have : a.toNat < c.toNat := by omega
              simp [this]
        · by_cases hba : b.toNat < a.toNat
          · simp [hab, hba] at hxy
          · by_cases hbc : b.toNat < c.toNat
            · have : a.toNat < c.toNat := by omega
              simp [this]
            · by_cases hcb : c.toNat < b.toNat
              · simp [hbc, hcb] at hyz
              · have h1 : ¬ a.toNat < c.toNat := by omega
                have h2 : ¬ c.toNat < a.toNat := by omega
                simp only [hab, hba, if_false] at hxy
                simp only [hbc, hcb, if_false] at hyz
                simp [h1, h2, ih bs cs hxy hyz]

theorem strLe_total (s t : String) : (strLe s t || strLe t s) = true :=
  lexLe_total s.data t.data

theorem strLe_trans (s t u : String) (h1 : strLe s t = true) (h2 : strLe t u = true) :
    strLe s u = true :=
  lexLe_trans s.data t.data u.data h1 h2

/-! ## String append is left-cancellative -/

theorem strAppendCancel {s t u : String} (h : s ++ t = s ++ u) : t = u := by
  have h2 : (s ++ t).data = (s ++ u).data := by rw [h]
  rw [String.data_append, String.data_append] at h2
  have h3 := List.append_cancel_left h2
  cases t
  cases u
  exact congrArg String.mk h3

/-! ## Claim theorems -/

/-- C1.  `App::remove_directories` removes from the entry list exactly the
rows whose glyph marks them at the time of the call, identified by full
resolved path (`homedir ++ name`), for every outcome `fsDel` of the
discarded filesystem deletions.  Distinct entries carry distinct names
(they are distinct filesystem paths), which the `Nodup` hypothesis
records. -/
theorem remove_directories_exact (homedir : String) (fsDel : String → Bool)
    (a : App) (hnd : (a.items.map Data.name).Nodup) :
    (removeDirectories homedir fsDel a).items
      = a.items.filter (fun d => !(d.selected_for_deletion == checkedGlyph)) := by
  unfold removeDirectories
  simp only
  apply List.filter_congr
  intro d hd
  congr 1
  by_cases hglyph : (d.selected_for_deletion == checkedGlyph) = true
  · rw [hglyph]
    have hmem : (homedir ++ d.name) ∈ a.items.filterMap (fun i =>
        if i.selected_for_deletion == checkedGlyph then
          some (homedir ++ i.name) else none) := by
      rw [List.mem_filterMap]
      exact ⟨d, hd, by rw [if_pos hglyph]⟩
    simpa [List.contains, List.elem_iff] using hmem
  · rw [Bool.eq_false_iff.mpr hglyph]
    rw [Bool.eq_false_iff]
    intro hc
    have hmem : (homedir ++ d.name) ∈ a.items.filterMap (fun i =>
        if i.selected_for_deletion == checkedGlyph then
          some (homedir ++ i.name) else none) := by
      simpa [List.contains, List.elem_iff] using hc
    rw [List.mem_filterMap] at hmem
    obtain ⟨e, he, hfe⟩ := hmem
    by_cases hge : (e.selected_for_deletion == checkedGlyph) = true
    · rw [if_pos hge] at hfe
      have hname : e.name = d.name := strAppendCancel (Option.some.inj hfe)
      have : e = d := List.inj_on_of_nodup_map hnd he hd hname
      subst this
      exact hglyph hge
    · rw [if_neg hge] at hfe
      exact Option.noConfusion hfe

/-- C1 witness: a mixed marked/unmarked list; deletion keeps exactly the
unmarked row. -/
theorem remove_directories_exact_witness :
    (removeDirectories "/home/u" (fun _ => true)
        (App.new [{ name := "/a/node_modules", size := "2 B", selected_for_deletion := "  ☑" },
                  { name := "/b/node_modules", size := "1 B", selected_for_deletion := "  ☐" },
                  { name := "/c/node_modules", size := "1 B", selected_for_deletion := "  ☑" }])).items
      = (App.new [{ name := "/a/node_modules", size := "2 B", selected_for_deletion := "  ☑" },
                  { name := "/b/node_modules", size := "1 B", selected_for_deletion := "  ☐" },
                  { name := "/c/node_modules", size := "1 B", selected_for_deletion := "  ☑" }]).items.filter
          (fun d => !(d.selected_for_deletion == checkedGlyph)) :=
  remove_directories_exact "/home/u" (fun _ => true) _ (by decide)

/-- Cursor validity: the cursor (defaulting to 0) addresses a row whenever
the list is non-empty. -/
def CursorOk (a : App) : Prop :=
  a.items ≠ [] → a.cursor.getD 0 < a.items.length

theorem sortByNextField_cursor (a : App) : (sortByNextField a).cursor = a.cursor := by
  obtain ⟨cur, scr, items, df, sb, ss, ci⟩ := a
  rcases sb with _ | _ | m <;> simp [sortByNextField]

theorem sortByNextField_len (a : App) :
    (sortByNextField a).items.length = a.items.length := by
  obtain ⟨cur, scr, items, df, sb, ss, ci⟩ := a
  rcases sb with _ | _ | m <;> simp [sortByNextField, List.length_mergeSort]

/-- C3 (amended).  Cursor moves, the toggle, the sort cycle and reversal
preserve cursor validity; `remove_directories` is not covered — the
counterexample shows it can leave the cursor out of range. -/
theorem cursor_ok_preserved (a : App) (h : CursorOk a) :
    (∀ b, nextRow a = some b → CursorOk b)
  ∧ (∀ b, previousRow a = some b → CursorOk b)
  ∧ (∀ b, selectForDeletion a = some b → CursorOk b)
  ∧ CursorOk (sortByNextField a)
  ∧ CursorOk (reverseItems a) := by
  refine ⟨?_, ?_, ?_, ?_, ?_⟩
  · intro b hb
    cases hc : a.cursor with
    | none =>
      simp only [nextRow, hc, Option.some.injEq] at hb
      subst hb
      intro hne
      simpa using List.length_pos.mpr (by simpa using hne)
    | some i =>
      simp only [nextRow, hc] at hb
      split at hb
      · exact Option.noConfusion hb
      · rename_i hlen
        rw [Option.some.injEq] at hb
        subst hb
        intro _
        simp only [Option.getD_some]
        split <;> omega
  · intro b hb
    cases hc : a.cursor with
    | none =>
      simp only [previousRow, hc, Option.some.injEq] at hb
      subst hb
      intro hne
      simpa using List.length_pos.mpr (by simpa using hne)
    | some i =>
      simp only [previousRow, hc] at hb
      split at hb
      · split at hb
        · exact Option.noConfusion hb
        · rename_i hi hlen
          rw [Option.some.injEq] at hb
          subst hb
          intro _
          simp only [Option.getD_some]
          omega
      · rename_i hi
        rw [Option.some.injEq] at hb
        subst hb
        intro hne
        have hlt := h (by simpa using hne)
        rw [hc] at hlt
        simp only [Option.getD_some] at hlt ⊢
        omega
  · intro b hb
    simp only [selectForDeletion] at hb
    split at hb
    · exact Option.noConfusion hb
    · rename_i d hd
      split at hb
      · exact Option.noConfusion hb
      · rename_i abc habc
        split at hb
        · exact Option.noConfusion hb
        · rename_i bfl hbfl
          split at hb <;> split at hb <;> try exact Option.noConfusion hb
          all_goals
            rw [Option.some.injEq] at hb
            subst hb
            intro hne
            simp only [List.length_set] at hne ⊢
            apply h
            intro hnil
            simp [hnil] at hne
  · intro hne
    rw [sortByNextField_cursor, sortByNextField_len]
    apply h
    intro hnil
    apply hne
    apply List.eq_nil_of_length_eq_zero
    rw [sortByNextField_len, hnil]
    rfl
  · intro hne
    simp only [reverseItems, List.length_reverse]
    apply h
    intro hnil
    simp [reverseItems, hnil] at hne

/-- The state reached from a fresh two-row list by one `next_row`. -/
def c3RowState : App :=
  { cursor := some 1, scroll := 4,
    items := [{ name := "/a/node_modules", size := "2 B", selected_for_deletion := "  ☐" },
              { name := "/b/node_modules", size := "1 B", selected_for_deletion := "  ☐" }],
    delete_folder := [false, false], sorted_by := 0, selected_size := 0,
    color_index := 0 }

/-- C3 amended witness: from a fresh two-row state, moving down lands on a
valid cursor (row 1 of 2). -/
theorem cursor_ok_preserved_witness :
    c3RowState.cursor.getD 0 < c3RowState.items.length :=
  (cursor_ok_preserved (App.new
        [{ name := "/a/node_modules", size := "2 B", selected_for_deletion := "  ☐" },
         { name := "/b/node_modules", size := "1 B", selected_for_deletion := "  ☐" }])
      (by intro hne; decide)).1 c3RowState (by decide) (by decide)

/-- C3 counterexample trace: three rows, mark the first two, move the
cursor to the third row, then delete the marked rows. -/
def c3Trace : Option App :=
  Option.map (removeDirectories "/home/u" (fun _ => true))
    (Option.bind (Option.bind (Option.bind
      (selectForDeletion (App.new
        [{ name := "/a/node_modules", size := "1 B", selected_for_deletion := "  ☐" },
         { name := "/b/node_modules", size := "1 B", selected_for_deletion := "  ☐" },
         { name := "/c/node_modules", size := "1 B", selected_for_deletion := "  ☐" }]))
      nextRow) selectForDeletion) nextRow)

/-- C3 counterexample: after `remove_directories` the list still holds one
row but the cursor index is 2, so the stated invariant fails after that
operation. -/
theorem cursor_invariant_fails_after_delete :
    Option.map App.items c3Trace
      = some [{ name := "/c/node_modules", size := "1 B", selected_for_deletion := "  ☐" }]
  ∧ Option.bind c3Trace App.cursor = some 2 := by
  constructor
  · decide
  · decide

/-- C4 (code bug).  On an empty entry list (the fresh state still selects
row 0), `next_row` and `previous_row` hit the usize underflow in
`items.len() - 1` and `select_for_deletion` indexes `items[0]` out of
bounds: all three fault instead of being no-ops. -/
theorem empty_list_ops_fault :
    nextRow (App.new []) = none
  ∧ previousRow (App.new []) = none
  ∧ selectForDeletion (App.new []) = none := by
  refine ⟨by decide, by decide, by decide⟩

/-- C2 (code bug) trace: one row of 1 byte, marked, then deleted. -/
def c2Trace : Option App :=
  Option.map (removeDirectories "/home/u" (fun _ => true))
    (selectForDeletion (App.new
      [{ name := "/a/node_modules", size := "1 B", selected_for_deletion := "  ☐" }]))

/-- C2 (code bug).  `remove_directories` never touches `selected_size`:
after deleting the only (marked) row the list is empty yet the aggregate
still reads 1 byte instead of the sum 0 over the remaining marked rows. -/
theorem aggregate_stale_after_delete :
    Option.map App.items c2Trace = some []
  ∧ Option.map App.selected_size c2Trace = some 1 := by
  refine ⟨by decide, by decide⟩

/-- C8 (code bug) trace, first half: mark row 0 (2 bytes) and reverse the
list — `items` is reversed but `delete_folder` is not, desynchronising
the glyph from the flag array. -/
def c8Mid : Option App :=
  Option.map reverseItems (selectForDeletion (App.new
    [{ name := "/a/node_modules", size := "2 B", selected_for_deletion := "  ☐" },
     { name := "/b/node_modules", size := "1 B", selected_for_deletion := "  ☐" }]))

/-- C8 (code bug) trace, second half: toggle twice at the fixed cursor 0. -/
def c8Fin : Option App :=
  Option.bind (Option.bind c8Mid selectForDeletion) selectForDeletion

/-- C8 (code bug).  In the reachable state `c8Mid` the row at the cursor is
unmarked; toggling twice with the cursor fixed at 0 leaves it marked —
the double toggle does not restore the marked state (the aggregate does
return to its prior 2 bytes, but the flags/glyphs have been corrupted by
the unreordered `delete_folder`). -/
theorem double_toggle_not_identity :
    Option.map App.items c8Mid
      = some [{ name := "/b/node_modules", size := "1 B", selected_for_deletion := "  ☐" },
              { name := "/a/node_modules", size := "2 B", selected_for_deletion := "  ☑" }]
  ∧ Option.bind c8Mid App.cursor = some 0
  ∧ Option.map App.selected_size c8Mid = some 2
  ∧ Option.map App.items c8Fin
      = some [{ name := "/b/node_modules", size := "1 B", selected_for_deletion := "  ☑" },
              { name := "/a/node_modules", size := "2 B", selected_for_deletion := "  ☑" }]
  ∧ Option.bind c8Fin App.cursor = some 0
  ∧ Option.map App.selected_size c8Fin = some 2 := by
  refine ⟨by decide, by decide, by decide, by decide, by decide, by decide⟩

/-- C9 (code bug).  A failing size computation on the first candidate
(`none` from the oracle hits the `.expect`) aborts the whole scan: no
entry list is produced at all, the second candidate included. -/
theorem size_error_aborts_scan :
    generateData "/home/u"
      (fun p => if p == "/home/u/p" then none else some 5)
      ["/p/node_modules", "/q/node_modules"] = none := by
  decide

/-- C5 counterexample: the label of 1234 bytes is rounded to one decimal
(the string "1.2 KB") and parses back to 1200, not 1234 — the
format-then-parse round trip on the stored size labels is not the
identity. -/
theorem size_label_roundtrip_fails_at_1234 :
    bytesize_from_str (bytesize_to_string 1234) = some 1200
  ∧ bytesize_from_str (bytesize_to_string 1234) ≠ some 1234 := by
  refine ⟨by decide, by decide⟩

/-- C5 amended witness: the label of 7 bytes parses back to 7. -/
theorem size_label_roundtrip_small_witness :
    bytesize_from_str (bytesize_to_string 7) = some 7 :=
  bytesize_roundtrip_small 7 (by decide)

/-- String representation the k-th sort key compares: 0 the name, 1 the
selection glyph, anything else the size label (the rotation of
`sort_by_next_field`). -/
def activeKeyStr (k : Nat) (d : Data) : String :=
  match k with
  | 0 => d.name
  | 1 => d.selected_for_deletion
  | _ => d.size

/-- C7.  From any state with a well-formed sort index (`sorted_by` stays in
0..2 along every run), three calls of `sort_by_next_field` return the
active key to its start, and a single call leaves the list sorted
non-decreasingly under the string representation of the then-active key,
as a permutation of the old list. -/
theorem sort_cycle (a : App) (h : a.sorted_by < 3) :
    (sortByNextField (sortByNextField (sortByNextField a))).sorted_by = a.sorted_by
  ∧ (sortByNextField a).items.Pairwise
      (fun x y => strLe (activeKeyStr a.sorted_by x) (activeKeyStr a.sorted_by y) = true)
  ∧ (sortByNextField a).items.Perm a.items := by
  obtain ⟨cur, scr, items, df, sb, ss, ci⟩ := a
  change sb < 3 at h
  have htr : ∀ f : Data → String, ∀ x y z : Data,
      strLe (f x) (f y) = true → strLe (f y) (f z) = true → strLe (f x) (f z) = true :=
    fun f x y z hxy hyz => strLe_trans (f x) (f y) (f z) hxy hyz
  have hto : ∀ f : Data → String, ∀ x y : Data,
      (strLe (f x) (f y) || strLe (f y) (f x)) = true :=
    fun f x y => strLe_total (f x) (f y)
  rcases sb with _ | _ | m
  · refine ⟨by simp [sortByNextField], ?_, ?_⟩
    · simpa [sortByNextField, activeKeyStr] using
        List.sorted_mergeSort (htr Data.name) (hto Data.name) items
    · simpa [sortByNextField] using
        List.mergeSort_perm items (fun x y : Data => strLe x.name y.name)
  · refine ⟨by simp [sortByNextField], ?_, ?_⟩
    · simpa [sortByNextField, activeKeyStr] using
        List.sorted_mergeSort
          (htr Data.selected_for_deletion) (hto Data.selected_for_deletion) items
    · simpa [sortByNextField] using
        List.mergeSort_perm items
          (fun x y : Data => strLe x.selected_for_deletion y.selected_for_deletion)
  · have hm : m = 0 := by omega
    subst hm
    refine ⟨by simp [sortByNextField], ?_, ?_⟩
    · simpa [sortByNextField, activeKeyStr] using
        List.sorted_mergeSort (htr Data.size) (hto Data.size) items
    · simpa [sortByNextField] using
        List.mergeSort_perm items (fun x y : Data => strLe x.size y.size)

/-- Two-row state used to witness the sort-cycle theorem. -/
def c7State : App :=
  App.new [{ name := "/b/node_modules", size := "2 B", selected_for_deletion := "  ☐" },
           { name := "/a/node_modules", size := "1 B", selected_for_deletion := "  ☐" }]

/-- C7 witness: the sort cycle theorem applied to a concrete fresh
two-row state (sort index 0). -/
theorem sort_cycle_witness :
    (sortByNextField (sortByNextField (sortByNextField c7State))).sorted_by = c7State.sorted_by
  ∧ (sortByNextField c7State).items.Pairwise
      (fun x y => strLe (activeKeyStr c7State.sorted_by x) (activeKeyStr c7State.sorted_by y) = true)
  ∧ (sortByNextField c7State).items.Perm c7State.items :=
  sort_cycle c7State (by decide)

/-- Every row a successful scan produces corresponds to a candidate whose
parent path passed the denylist check. -/
theorem generateData_out (homedir : String) (sizes : String → Option Nat) :
    ∀ cands out, generateData homedir sizes cands = some out →
      ∀ d ∈ out, d.name ∈ cands ∧ excludedParent d.name = false := by
  intro cands
  induction cands with
  | nil =>
    intro out h d hd
    simp only [generateData, Option.some.injEq] at h
    subst h
    simp at hd
  | cons c rest ih =>
    intro out h d hd
    simp only [generateData] at h
    split at h
    · exact Option.noConfusion h
    · split at h
      · rename_i hex
        have := ih out h d hd
        exact ⟨by simp [this.1], this.2⟩
      · rename_i hex
        split at h
        · exact Option.noConfusion h
        · rename_i n hn
          split at h
          · exact Option.noConfusion h
          · rename_i ds hds
            rw [Option.some.injEq] at h
            subst h
            rcases List.mem_cons.mp hd with hd | hd
            · subst hd
              exact ⟨by simp, by simpa using hex⟩
            · have := ih ds hds d hd
              exact ⟨by simp [this.1], this.2⟩

/-- Every candidate whose parent path passes the denylist check appears,
by name, in the output of a successful scan. -/
theorem generateData_mem (homedir : String) (sizes : String → Option Nat) :
    ∀ cands out, generateData homedir sizes cands = some out →
      ∀ c ∈ cands, excludedParent c = false → c ∈ out.map Data.name := by
  intro cands
  induction cands with
  | nil =>
    intro out _ c hc
    simp at hc
  | cons c0 rest ih =>
    intro out h c hc hex
    simp only [generateData] at h
    split at h
    · exact Option.noConfusion h
    · split at h
      · rename_i hex0
        rcases List.mem_cons.mp hc with hc | hc
        · subst hc
          rw [hex] at hex0
          exact absurd hex0 (by simp)
        · exact ih out h c hc hex
      · rename_i hex0
        split at h
        · exact Option.noConfusion h
        · rename_i n hn
          split at h
          · exact Option.noConfusion h
          · rename_i ds hds
            rw [Option.some.injEq] at h
            subst h
            rcases List.mem_cons.mp hc with hc | hc
            · subst hc
              simp
            · simp only [List.map_cons, List.mem_cons]
              exact Or.inr (ih ds hds c hc hex)

/-- C6.  A candidate (a path whose final segment is the target folder name)
with a denylisted ancestor — its parent path contains a denylisted
substring — never appears in the scan output, and a candidate whose
parent path is clean always does, whenever the scan completes. -/
theorem scanner_exclusion (homedir : String) (sizes : String → Option Nat)
    (cands : List String) (out : List Data)
    (h : generateData homedir sizes cands = some out)
    (c : String) (hc : c ∈ cands) :
    (excludedParent c = true → ¬ c ∈ out.map Data.name)
  ∧ (excludedParent c = false → c ∈ out.map Data.name) := by
  constructor
  · intro hex hmem
    rw [List.mem_map] at hmem
    obtain ⟨d, hd, hname⟩ := hmem
    have := (generateData_out homedir sizes cands out h d hd).2
    rw [hname, hex] at this
    exact Bool.noConfusion this
  · intro hex
    exact generateData_mem homedir sizes cands out h c hc hex

/-- Scan output on the two example candidates of the claim. -/
def c6Out : List Data :=
  [{ name := "/project/node_modules", size := "150 B", selected_for_deletion := "  ☐" }]

/-- C6 witness: with a constant size oracle, the nested candidate under a
denylisted ancestor is excluded and the clean candidate appears. -/
theorem scanner_exclusion_witness :
    (¬ "/x/node_modules/.cache/node_modules" ∈ List.map Data.name c6Out)
  ∧ ("/project/node_modules" ∈ List.map Data.name c6Out) :=
  ⟨(scanner_exclusion "/home/u" (fun _ => some 150)
      ["/project/node_modules", "/x/node_modules/.cache/node_modules"] c6Out
      (by decide) "/x/node_modules/.cache/node_modules" (by decide)).1 (by decide),
   (scanner_exclusion "/home/u" (fun _ => some 150)
      ["/project/node_modules", "/x/node_modules/.cache/node_modules"] c6Out
      (by decide) "/project/node_modules" (by decide)).2 (by decide)⟩

/-- C10.  The toggle touches only the glyph of the row at the cursor, the
matching `delete_folder` flag and the aggregate: cursor, scroll position,
sort index, color index, both lengths, every other row and flag, and the
name and size of the cursor row are all unchanged. -/
theorem select_for_deletion_frame (a a2 : App) (h : selectForDeletion a = some a2) :
    a2.cursor = a.cursor
  ∧ a2.scroll = a.scroll
  ∧ a2.sorted_by = a.sorted_by
  ∧ a2.color_index = a.color_index
  ∧ a2.items.length = a.items.length
  ∧ a2.delete_folder.length = a.delete_folder.length
  ∧ (∀ j, j ≠ a.cursor.getD 0 → a2.items[j]? = a.items[j]?)
  ∧ (∀ j, j ≠ a.cursor.getD 0 → a2.delete_folder[j]? = a.delete_folder[j]?)
  ∧ Option.map Data.name (a2.items[a.cursor.getD 0]?)
      = Option.map Data.name (a.items[a.cursor.getD 0]?)
  ∧ Option.map Data.size (a2.items[a.cursor.getD 0]?)
      = Option.map Data.size (a.items[a.cursor.getD 0]?) := by
  simp only [selectForDeletion] at h
  split at h
  · exact Option.noConfusion h
  · rename_i d hd
    split at h
    · exact Option.noConfusion h
    · rename_i abc habc
      split at h
      · exact Option.noConfusion h
      · rename_i bfl hbfl
        have hilt : a.cursor.getD 0 < a.items.length := by
          rcases List.getElem?_eq_some.mp hd with ⟨hlt, _⟩
          exact hlt
        split at h <;> split at h <;> try exact Option.noConfusion h
        all_goals
          rw [Option.some.injEq] at h
          subst h
          refine ⟨rfl, rfl, rfl, rfl, by simp [List.length_set], by simp [List.length_set],
            ?_, ?_, ?_, ?_⟩
        all_goals try
          intro j hj
          simp [List.getElem?_set_ne (Ne.symm hj)]
        all_goals
          rw [List.getElem?_set_self hilt, hd]
          rfl

/-- Fresh two-row state used to witness the frame theorem. -/
def c10Before : App :=
  App.new [{ name := "/a/node_modules", size := "2 B", selected_for_deletion := "  ☐" },
           { name := "/b/node_modules", size := "1 B", selected_for_deletion := "  ☐" }]

/-- The state after one toggle at cursor 0 of `c10Before`. -/
def c10After : App :=
  { cursor := some 0, scroll := 0,
    items := [{ name := "/a/node_modules", size := "2 B", selected_for_deletion := "  ☑" },
              { name := "/b/node_modules", size := "1 B", selected_for_deletion := "  ☐" }],
    delete_folder := [true, false], sorted_by := 0, selected_size := 2,
    color_index := 0 }

/-- C10 witness: the frame theorem applied at the concrete toggle; the
cursor is unchanged and the other row is untouched. -/
theorem select_for_deletion_frame_witness :
    c10After.cursor = c10Before.cursor
  ∧ c10After.items[1]? = c10Before.items[1]? :=
  ⟨(select_for_deletion_frame c10Before c10After (by decide)).1,
   (select_for_deletion_frame c10Before c10After (by decide)).2.2.2.2.2.2.1 1 (by decide)⟩
